import Mathlib

/-!
Shallow embedding of the octarine runtime substrate (src/src/octarine.cpp)
for checking its specification. The platform is the 64-bit configuration
(OCT_64): `Uword` is a 64-bit word and all pointers are 8 bytes.
Addresses and sizes are modelled as `Nat` (byte counts / byte addresses).
-/

/-- Size in bytes of `Uword` (U64 under OCT_64). -/
def sizeofUword : Nat := 8

/-- Size in bytes of a data pointer such as `Type*` (64-bit platform). -/
def sizeofPtr : Nat := 8

/-- Size in bytes of `OwnedBoxHeader` (a single `Uword dummy` field). -/
def sizeofOwnedBoxHeader : Nat := sizeofUword

/-- Size in bytes of the fixed part of `Array<T>`: the `Type* elementType`
and `Uword size` fields that precede the flexible member `T data[]`. -/
def sizeofArrayFixed : Nat := sizeofPtr + sizeofUword

/-- Number of bytes `ExchangeHeap::alloc<T>` requests from `SYS.alloc`:
`sizeof(OwnedBox<T>)`, i.e. the owned-box header followed by the object
(for a payload type whose alignment does not exceed the word size, so the
`object` field sits exactly `sizeof(OwnedBoxHeader)` bytes into the box). -/
def allocRequestSize (sizeofT : Nat) : Nat := sizeofOwnedBoxHeader + sizeofT

/-- Payload address returned by `ExchangeHeap::alloc<T>`: `ret.obj = &box->object`,
where `box` is the block address returned by the single `SYS.alloc` call and
the `object` field of `OwnedBox<T>` lies `sizeof(OwnedBoxHeader)` bytes past
the start of the box. -/
def allocPayloadAddr (base : Nat) : Nat := base + sizeofOwnedBoxHeader

/-- `OwnedBox<T>::getBox(object)`: recovers the box address by subtracting
`sizeof(OwnedBoxHeader)` from the payload address. -/
def getBoxAddr (payload : Nat) : Nat := payload - sizeofOwnedBoxHeader

/-- The system deallocation calls issued by one `ExchangeHeap::free(object)`
call: exactly one `SYS.free`, at `OwnedBox<Nothing>::getBox(object)`. -/
def freeSysCalls (payload : Nat) : List Nat := [getBoxAddr payload]

/-- Number of bytes `ExchangeHeap::allocArray<T>(ctx, length)` requests from
`SYS.alloc`: the source computes `sizeof(Array<T>) + sizeof(T) * length`,
where `sizeof(Array<T>)` is just the fixed `elementType`/`size` fields
(the flexible member contributes nothing). Note that this omits the
`OwnedBoxHeader` even though the function casts the block to
`OwnedBox<Array<T>>*` and returns `&box->object`. -/
def allocArrayRequestSize (sizeofT n : Nat) : Nat := sizeofArrayFixed + sizeofT * n

/-- Number of bytes actually needed to hold an `OwnedBox<Array<T>>` with `n`
trailing elements: the owned-box header followed by the `Array<T>` payload
(fixed fields plus `n` elements). -/
def ownedBoxArraySize (sizeofT n : Nat) : Nat :=
  sizeofOwnedBoxHeader + sizeofArrayFixed + sizeofT * n

/-- The `Exception` class of the source (it has no members yet). -/
structure OctException where

/-- `Option<T>` from the source: a `variant` tag with a union of `Nothing`
and a `T value`, modelled as an inductive with the same two variants. -/
inductive OptionV (T : Type) where
  | nothing
  | something (value : T)

/-- `Option<T>::hasValue()`: `variant == SOMETHING`. -/
def OptionV.hasValue {T : Type} : OptionV T → Bool
  | .nothing => false
  | .something _ => true

/-- `Option<T>::getValue()`: throws `Exception()` when the variant is
`NOTHING`, otherwise returns the stored `value`. The throw is modelled as
`Except.error`; no `T` is produced on that path. -/
def OptionV.getValue {T : Type} : OptionV T → Except OctException T
  | .nothing => .error {}
  | .something v => .ok v

/-- A hashtable slot, `HashtableEntry` from the source: an `Option` key and
a value. `some (k, v)` models an occupied slot (key variant `SOMETHING`);
`none` models a free slot (key variant `NOTHING`; the value field of a free
slot is never read and is not modelled). -/
abbrev Slot (K V : Type) := Option (K × V)

/-- Whether a slot is occupied by the key `k`. Key equality is dispatched
through the `HashtableKey` capability table in the source; it is modelled
by a `DecidableEq` instance on the key type. -/
def slotHasKey {K V : Type} [DecidableEq K] (k : K) : Slot K V → Bool
  | some kv => decide (kv.1 = k)
  | none => false

/-- Modelled from the spec: the body of `Hashtable<TKey,TVal>::put` is an
unimplemented error directive in the source, and §4.4/§9 leave the
collision policy open. The chosen policy places a new key into the first
free slot of the backing array; this helper fills that slot. -/
def fillFirstFree {K V : Type} (k : K) (v : V) : List (Slot K V) → List (Slot K V)
  | [] => []
  | none :: rest => some (k, v) :: rest
  | some p :: rest => some p :: fillFirstFree k v rest

/-- Modelled from the spec: replace a slot's value in place when the slot
already holds the key (the update half of `put`, see `putSlots`). -/
def overwriteSlot {K V : Type} [DecidableEq K] (k : K) (v : V) (s : Slot K V) : Slot K V :=
  if slotHasKey k s then some (k, v) else s

/-- Modelled from the spec: `Hashtable<TKey,TVal>::put(key, val)` is
unimplemented in the source. Per §4.4, `put` stores the value for the key
in the fixed-capacity slot array: if some slot already holds the key its
value is overwritten in place, otherwise the pair is placed in the first
free slot (a full table with a fresh key leaves the table unchanged; the
claims only concern tables with enough capacity). -/
def putSlots {K V : Type} [DecidableEq K] (slots : List (Slot K V)) (k : K) (v : V) :
    List (Slot K V) :=
  if slots.any (slotHasKey k) then
    slots.map (overwriteSlot k v)
  else
    fillFirstFree k v slots

/-- Modelled from the spec: `Hashtable<TKey,TVal>::get(key)` is
unimplemented in the source. Per §4.4, `get` returns `Something(value)`
when some slot holds the key and `Nothing` otherwise, scanning the slot
array for a key match. -/
def getSlots {K V : Type} [DecidableEq K] (slots : List (Slot K V)) (k : K) : Option V :=
  match slots.find? (slotHasKey k) with
  | some (some kv) => some kv.2
  | _ => none

/-- `Hashtable<TKey, TVal>` from the source: an owned array of
`HashtableEntry` slots. -/
structure Hashtable (K V : Type) where
  slots : List (Slot K V)

/-- A hashtable whose `cap` slots are all free (every key `Nothing`). -/
def Hashtable.empty (K V : Type) (cap : Nat) : Hashtable K V :=
  ⟨List.replicate cap none⟩

/-- `put` on the table wrapper (see `putSlots`). -/
def Hashtable.put {K V : Type} [DecidableEq K] (t : Hashtable K V) (k : K) (v : V) :
    Hashtable K V :=
  ⟨putSlots t.slots k v⟩

/-- `get` on the table wrapper: returns the lookup result together with the
table as it stands after the call, making it visible that the entry is
neither removed nor modified (see `getSlots`). -/
def Hashtable.get {K V : Type} [DecidableEq K] (t : Hashtable K V) (k : K) :
    Option V × Hashtable K V :=
  (getSlots t.slots k, t)

/-- Insert a list of key/value pairs left to right with `put`. -/
def insertAll {K V : Type} [DecidableEq K] (kvs : List (K × V)) (slots : List (Slot K V)) :
    List (Slot K V) :=
  kvs.foldl (fun s kv => putSlots s kv.1 kv.2) slots

/-- Number of free slots in a slot array. -/
def countFree {K V : Type} (slots : List (Slot K V)) : Nat :=
  slots.countP (fun s => s.isNone)

/-- Number of occupied slots of a table. -/
def occupiedCount {K V : Type} (t : Hashtable K V) : Nat :=
  t.slots.countP (fun s => s.isSome)

/-- The capacity `Hashtable<TKey,TVal>::ctor(ctx)` requests from
`allocArray`: the prototype's hard-coded 100 entries. -/
def hashtableCtorCapacityRequest : Nat := 100

/-- `Hashtable<TKey,TVal>::ctor(ctx)`: the body only assigns `entries` the
block returned by `allocArray(ctx, 100)`. `allocArray` obtains the block
from `SYS.alloc` (malloc), whose contents are indeterminate, and `ctor`
writes no slot, so the resulting slot array is exactly whatever bytes the
allocation happened to contain, passed in here as `raw`. -/
def hashtableCtorSlots {K V : Type} (raw : List (Slot K V)) : List (Slot K V) := raw

/-- Actions a hashtable teardown can perform. -/
inductive HtDtorAction where
  | slotKeyDtor
  | slotValDtor
  | freeEntries
deriving DecidableEq

/-- `Hashtable<TKey,TVal>::dtor(ctx)`: the body is the single call
`entries.dtor(ctx)`. `PointerBase::dtor` (the `Owned` release) has no
definition anywhere in the source; per §4.1 it invokes the referent's
destructor protocol and returns the backing memory to the allocator. The
referent here is the `Array` of entries, a plain struct with no capability
table of its own, so the release frees the backing array; no code in the
source iterates the slots or invokes a stored key or value destructor. -/
def hashtableDtorTrace {K V : Type} (_t : Hashtable K V) : List HtDtorAction :=
  [.freeEntries]

/-- `NamespaceEntry::Variant` from the source. -/
inductive NamespaceEntryVariant where
  | NOTHING
  | OWNED_OBJECT
  | CONSTANT_OBJECT
deriving DecidableEq

/-- `NamespaceEntry`: a variant tag over a union of nothing / owned object /
constant object. Only the tag decides the destructor behaviour. -/
structure NamespaceEntry where
  variant : NamespaceEntryVariant

/-- `NamespaceEntry::isNothing()`: `variant == NOTHING`. -/
def NamespaceEntry.isNothing (e : NamespaceEntry) : Bool :=
  decide (e.variant = .NOTHING)

/-- `NamespaceEntry::isOwned()`: `variant == OWNED_OBJECT`. -/
def NamespaceEntry.isOwned (e : NamespaceEntry) : Bool :=
  decide (e.variant = .OWNED_OBJECT)

/-- `NamespaceEntry::isConstant()`: `variant == CONSTANT_OBJECT`. -/
def NamespaceEntry.isConstant (e : NamespaceEntry) : Bool :=
  decide (e.variant = .CONSTANT_OBJECT)

/-- Number of destructor-capability invocations performed by
`NamespaceEntry::dtor(ctx)`, whose body is `if (isOwned()) owned.dtor(ctx);`.
`Owned::dtor` has no definition in the source; per §4.1 releasing an
`Owned` reference invokes the referent's destructor protocol exactly once,
so the taken branch contributes one invocation and the skipped branch
none. -/
def NamespaceEntry.dtorCalls (e : NamespaceEntry) : Nat :=
  if e.isOwned then 1 else 0

/-- The steps `Runtime::~Runtime()` can perform. -/
inductive TeardownEvent where
  | destroyContext (i : Nat)
  | destroyNamespaceBindings
  | releaseExecutionEngine
deriving DecidableEq

/-- `Runtime::~Runtime()`: iterates `_contexts` deleting each context in
order, then calls `_namespaces.dtor(nullptr)` (the namespace teardown
path), then `delete _ee` (the backend execution engine, which transitively
deletes the JIT module). -/
def runtimeDtorTrace (numContexts : Nat) : List TeardownEvent :=
  (List.range numContexts).map TeardownEvent.destroyContext ++
    [TeardownEvent.destroyNamespaceBindings, TeardownEvent.releaseExecutionEngine]

/-- `a` occurs strictly before `b` in the list `l`. -/
def occursBefore {α : Type} (l : List α) (a b : α) : Prop :=
  ∃ i j, i < j ∧ l.get? i = some a ∧ l.get? j = some b

/-- `Array<U8>` as used by `String`: the `size` field and the trailing
bytes (each a value below 256, modelled as `Nat`). -/
structure ArrayU8 where
  size : Nat
  data : List Nat
deriving DecidableEq

/-- `String` from the source (named `OctString` to avoid clashing with the
Lean `String`): a codepoint count and an owned byte array. -/
structure OctString where
  numCodepoints : Nat
  data : ArrayU8
deriving DecidableEq

/-- `String::createFromCString(ctx, str)`: computes `len = strlen(str)`
(the bytes before the first zero byte), allocates a `len + 1` byte array,
copies the `len` bytes, writes the trailing terminator byte, sets the
array `size` to `len + 1` and `numCodepoints` to `len` (the source notes
this count is only right when every codepoint is one byte). The argument
is the pointed-to byte sequence; `strlen` reads it up to the first zero. -/
def createFromCString (cstr : List Nat) : OctString :=
  let body := cstr.takeWhile (fun b => decide (b ≠ 0))
  { numCodepoints := body.length
    data := { size := body.length + 1, data := body ++ [0] } }

/-- `Namespace` from the source: a name and a bindings table. The bindings
table member is never constructed or read on the modelled paths and is not
modelled. -/
structure NamespaceM where
  name : OctString
deriving DecidableEq

/-- `Context`: holds its runtime (implicit here, there is one) and the
namespace it is bound to. -/
structure ContextM where
  ns : NamespaceM
deriving DecidableEq

/-- `Runtime` state after construction: the `_namespaces` registry, the
`_contexts` list and the thread-local `_currentContext`. -/
structure RuntimeM where
  namespaces : Hashtable OctString NamespaceM
  contexts : List ContextM
  currentContext : Option ContextM

/-- The bytes of the C string literal `"octarine"`, terminator included. -/
def octarineCString : List Nat := [111, 99, 116, 97, 114, 105, 110, 101, 0]

/-- `Runtime::Runtime()` after the one-time backend initialization:
allocates a `Namespace` on the exchange heap, creates the main `Context`
bound to it, assigns the namespace the name
`String::createFromCString(mainCtx, "octarine")`, registers it via
`_namespaces.put(octNs->name, octNs)`, appends the context to `_contexts`
and installs it in `_currentContext`. `Hashtable::put` is unimplemented in
the source (its body is an error directive), so registration goes through
the spec-modelled `Hashtable.put`; `_namespaces` is modelled as a table of
the prototype's 100 free slots. -/
def runtimeCtor : RuntimeM :=
  let octName := createFromCString octarineCString
  let octNs : NamespaceM := { name := octName }
  let mainCtx : ContextM := { ns := octNs }
  { namespaces := Hashtable.put (Hashtable.empty OctString NamespaceM 100) octName octNs
    contexts := [mainCtx]
    currentContext := some mainCtx }

/-- `Runtime::getCurrentContext()`: reads the thread-local
`_currentContext`. -/
def RuntimeM.getCurrentContext (rt : RuntimeM) : Option ContextM :=
  rt.currentContext

/-- C1: every `ExchangeHeap::alloc<T>` payload address lies exactly
`sizeof(OwnedBoxHeader)` bytes past the start of the allocated block;
passing that payload to `ExchangeHeap::free` recovers exactly the block
address (payload minus header size) and issues exactly one system
deallocation call per allocation call (also over whole sequences of
allocations, one `SYS.free` per block, in order). -/
theorem alloc_free_addressing (bases : List Nat) :
    (∀ base, allocPayloadAddr base = base + sizeofOwnedBoxHeader ∧
        getBoxAddr (allocPayloadAddr base) = base ∧
        freeSysCalls (allocPayloadAddr base) = [base]) ∧
    (bases.map fun b => freeSysCalls (allocPayloadAddr b)).flatten = bases := by
  constructor
  · intro base
    refine ⟨rfl, ?_, ?_⟩
    · simp [getBoxAddr, allocPayloadAddr]
    · simp [freeSysCalls, getBoxAddr, allocPayloadAddr]
  · induction bases with
    | nil => rfl
    | cons b bs ih =>
      simp [freeSysCalls, getBoxAddr, allocPayloadAddr] at ih ⊢
      simp [ih]

/-- C3 evidence: `ExchangeHeap::allocArray<T>(ctx, n)` requests
`sizeof(Array<T>) + sizeof(T) * n` bytes, which is exactly
`sizeof(OwnedBoxHeader)` bytes short of the owned-box header followed by
the array payload with `n` elements, and also differs from the
header-size + elementSize * n the claim states; evaluated at element size
1 and length 0 the request is 16 bytes while the box needs 24. -/
theorem allocArray_request_short :
    allocArrayRequestSize 1 0 = 16 ∧
    ownedBoxArraySize 1 0 = 24 ∧
    ∀ sizeofT n,
      allocArrayRequestSize sizeofT n + sizeofOwnedBoxHeader = ownedBoxArraySize sizeofT n ∧
      allocArrayRequestSize sizeofT n < ownedBoxArraySize sizeofT n ∧
      allocArrayRequestSize sizeofT n ≠ sizeofOwnedBoxHeader + sizeofT * n := by
  refine ⟨by decide, by decide, fun s n => ?_⟩
  unfold allocArrayRequestSize ownedBoxArraySize sizeofOwnedBoxHeader sizeofArrayFixed
    sizeofPtr sizeofUword
  omega

/-- C4: `Option<T>::getValue()` on a `NOTHING` variant always fails with
the missing-value exception (it produces no `T` at all, in particular no
default-constructed one), and on a `SOMETHING` variant returns the stored
value. -/
theorem getValue_nothing_fails (T : Type) (o : OptionV T) :
    (o = .nothing → o.getValue = .error {}) ∧
    (∀ v, o = .something v → o.getValue = .ok v) := by
  refine ⟨fun h => ?_, fun v h => ?_⟩ <;> subst h <;> rfl

/-- Witness for C4 at `T = Nat`. -/
theorem getValue_nothing_fails_witness :
    (OptionV.nothing : OptionV Nat).getValue = .error {} ∧
    (OptionV.something 5).getValue = .ok 5 :=
  ⟨(getValue_nothing_fails Nat .nothing).1 rfl,
   (getValue_nothing_fails Nat (.something 5)).2 5 rfl⟩

/-- C5 evidence: `Hashtable::ctor` passes the raw 100-entry allocation
through without writing any slot, so an allocation whose bytes happen to
decode to occupied slots yields a table in which not every slot key is the
`Nothing` marker. -/
theorem hashtable_ctor_no_slot_writes :
    ∃ raw : List (Slot Nat Nat),
      raw.length = hashtableCtorCapacityRequest ∧
      hashtableCtorSlots raw = raw ∧
      ¬ ∀ s ∈ hashtableCtorSlots raw, s = none := by
  refine ⟨List.replicate 100 (some (0, 0)), by simp [hashtableCtorCapacityRequest], rfl, ?_⟩
  intro h
  exact Option.noConfusion (h (some (0, 0)) (by simp [hashtableCtorSlots, List.mem_replicate]))

/-- C6 evidence: `Hashtable::dtor` on a table with an occupied slot
performs only the release of the backing entries array; no stored key or
value destructor action appears in its teardown trace. -/
theorem hashtable_dtor_no_slot_dtor :
    ∃ t : Hashtable Nat Nat,
      0 < occupiedCount t ∧
      hashtableDtorTrace t = [HtDtorAction.freeEntries] ∧
      HtDtorAction.slotKeyDtor ∉ hashtableDtorTrace t ∧
      HtDtorAction.slotValDtor ∉ hashtableDtorTrace t :=
  ⟨⟨[some (1, 2)]⟩, by decide, rfl, by decide, by decide⟩

/-- C7: `NamespaceEntry::dtor` invokes the bound object's destructor
capability exactly once when the variant is an owned object, and never
invokes any destructor when the variant is a constant object or absent. -/
theorem namespaceEntry_dtor_calls (e : NamespaceEntry) :
    (e.variant = .OWNED_OBJECT → e.dtorCalls = 1) ∧
    (e.variant = .CONSTANT_OBJECT → e.dtorCalls = 0) ∧
    (e.variant = .NOTHING → e.dtorCalls = 0) := by
  refine ⟨fun h => ?_, fun h => ?_, fun h => ?_⟩ <;>
    simp [NamespaceEntry.dtorCalls, NamespaceEntry.isOwned, h]

/-- Witness for C7 at each of the three variants. -/
theorem namespaceEntry_dtor_calls_witness :
    NamespaceEntry.dtorCalls ⟨.OWNED_OBJECT⟩ = 1 ∧
    NamespaceEntry.dtorCalls ⟨.CONSTANT_OBJECT⟩ = 0 ∧
    NamespaceEntry.dtorCalls ⟨.NOTHING⟩ = 0 :=
  ⟨(namespaceEntry_dtor_calls ⟨.OWNED_OBJECT⟩).1 rfl,
   (namespaceEntry_dtor_calls ⟨.CONSTANT_OBJECT⟩).2.1 rfl,
   (namespaceEntry_dtor_calls ⟨.NOTHING⟩).2.2 rfl⟩

/-- C8: in `Runtime::~Runtime()` every live context destruction occurs
before the namespace-bindings teardown, which occurs before the backend
execution engine release. -/
theorem runtime_dtor_order (n i : Nat) (h : i < n) :
    occursBefore (runtimeDtorTrace n) (TeardownEvent.destroyContext i)
      TeardownEvent.destroyNamespaceBindings ∧
    occursBefore (runtimeDtorTrace n) TeardownEvent.destroyNamespaceBindings
      TeardownEvent.releaseExecutionEngine := by
  have hget1 : (runtimeDtorTrace n).get? i = some (TeardownEvent.destroyContext i) := by
    rw [runtimeDtorTrace, List.get?_append (by simpa using h), List.get?_map,
      List.get?_range h]
    rfl
  have hget2 : (runtimeDtorTrace n).get? n = some TeardownEvent.destroyNamespaceBindings := by
    rw [runtimeDtorTrace, List.get?_append_right (by simp)]
    simp
  have hget3 : (runtimeDtorTrace n).get? (n + 1) = some TeardownEvent.releaseExecutionEngine := by
    rw [runtimeDtorTrace, List.get?_append_right (by simp)]
    have hn : n + 1 - n = 1 := by omega
    simp [hn]
  exact ⟨⟨i, n, h, hget1, hget2⟩, ⟨n, n + 1, by omega, hget2, hget3⟩⟩

/-- Witness for C8 with one live context. -/
theorem runtime_dtor_order_witness :
    occursBefore (runtimeDtorTrace 1) (TeardownEvent.destroyContext 0)
      TeardownEvent.destroyNamespaceBindings ∧
    occursBefore (runtimeDtorTrace 1) TeardownEvent.destroyNamespaceBindings
      TeardownEvent.releaseExecutionEngine :=
  runtime_dtor_order 1 0 (by decide)

/-- `strlen` stops at the terminator: on a byte sequence with no interior
zero followed by a zero byte, the scanned body is the whole sequence. -/
theorem takeWhile_ne_zero_append (s : List Nat) (hnz : ∀ b ∈ s, b ≠ 0) :
    (s ++ [0]).takeWhile (fun b => decide (b ≠ 0)) = s := by
  induction s with
  | nil => rfl
  | cons a t ih =>
    have ha : decide (a ≠ 0) = true := by simp [hnz a (by simp)]
    have ih' := ih (fun b hb => hnz b (by simp [hb]))
    rw [List.cons_append, List.takeWhile_cons, if_pos ha, ih']

/-- C10: for an ASCII input of byte length `n` (no interior zero bytes),
`String::createFromCString` yields a byte array holding the `n` bytes
followed by the terminator byte, with array `size` field `n + 1` and
`numCodepoints` equal to `n`. -/
theorem createFromCString_ascii (s : List Nat) (hnz : ∀ b ∈ s, b ≠ 0) :
    (createFromCString (s ++ [0])).data.data = s ++ [0] ∧
    (createFromCString (s ++ [0])).data.size = s.length + 1 ∧
    (createFromCString (s ++ [0])).data.data.getLast? = some 0 ∧
    (createFromCString (s ++ [0])).numCodepoints = s.length := by
  have ht := takeWhile_ne_zero_append s hnz
  refine ⟨?_, ?_, ?_, ?_⟩ <;> simp only [createFromCString] <;> rw [ht]
  exact List.getLast?_concat s

/-- Witness for C10: the `"hi"` round trip, bytes `['h','i','\x00']`, size
3, codepoint count 2. -/
theorem createFromCString_ascii_witness :
    (createFromCString ([104, 105] ++ [0])).data.data = [104, 105] ++ [0] ∧
    (createFromCString ([104, 105] ++ [0])).data.size = [104, 105].length + 1 ∧
    (createFromCString ([104, 105] ++ [0])).data.data.getLast? = some 0 ∧
    (createFromCString ([104, 105] ++ [0])).numCodepoints = [104, 105].length :=
  createFromCString_ascii [104, 105] (by decide)

/-- C9: after `Runtime::Runtime()` the current context of the calling
thread is the main context, which is bound to the namespace named
`"octarine"`; that namespace is registered in the runtime's namespace
table under its name (and looking it up does not disturb the table); the
name's bytes are exactly `"octarine"` with terminator and its codepoint
count is 8. -/
theorem runtime_ctor_octarine :
    runtimeCtor.getCurrentContext =
      some { ns := { name := createFromCString octarineCString } } ∧
    runtimeCtor.contexts = [{ ns := { name := createFromCString octarineCString } }] ∧
    (runtimeCtor.namespaces.get (createFromCString octarineCString)).1 =
      some { name := createFromCString octarineCString } ∧
    (runtimeCtor.namespaces.get (createFromCString octarineCString)).2 =
      runtimeCtor.namespaces ∧
    (createFromCString octarineCString).data.data = octarineCString ∧
    (createFromCString octarineCString).numCodepoints = 8 := by
  refine ⟨rfl, rfl, ?_, rfl, rfl, rfl⟩
  rfl

/-- Lookup skips a slot that does not hold the key. -/
theorem getSlots_cons_neg {K V : Type} [DecidableEq K] {k : K} {s : Slot K V}
    {rest : List (Slot K V)} (h : slotHasKey k s = false) :
    getSlots (s :: rest) k = getSlots rest k := by
  unfold getSlots
  rw [List.find?_cons_of_neg _ (by simp [h])]

/-- Lookup stops at a slot that holds the key. -/
theorem getSlots_cons_pos {K V : Type} [DecidableEq K] {k : K} {p : K × V}
    {rest : List (Slot K V)} (h : slotHasKey k (some p) = true) :
    getSlots (some p :: rest) k = some p.2 := by
  unfold getSlots
  rw [List.find?_cons_of_pos _ h]

/-- Lookup finds a freshly written pair at the head. -/
theorem getSlots_cons_self {K V : Type} [DecidableEq K] (k : K) (v : V)
    (rest : List (Slot K V)) : getSlots (some (k, v) :: rest) k = some v :=
  getSlots_cons_pos (by simp [slotHasKey])

/-- When no slot holds the key, lookup misses. -/
theorem getSlots_eq_none_of_any_false {K V : Type} [DecidableEq K]
    {slots : List (Slot K V)} {k : K} (h : slots.any (slotHasKey k) = false) :
    getSlots slots k = none := by
  induction slots with
  | nil => rfl
  | cons s rest ih =>
    simp only [List.any_cons, Bool.or_eq_false_iff] at h
    rw [getSlots_cons_neg h.1]
    exact ih h.2

/-- When lookup misses, no slot holds the key. -/
theorem any_eq_false_of_getSlots_eq_none {K V : Type} [DecidableEq K]
    {slots : List (Slot K V)} {k : K} (h : getSlots slots k = none) :
    slots.any (slotHasKey k) = false := by
  induction slots with
  | nil => rfl
  | cons s rest ih =>
    cases hs : slotHasKey k s with
    | false =>
      rw [getSlots_cons_neg hs] at h
      simp [List.any_cons, hs, ih h]
    | true =>
      cases s with
      | none => simp [slotHasKey] at hs
      | some p =>
        rw [getSlots_cons_pos hs] at h
        exact absurd h (by simp)

/-- Number of free slots of a cons cell. -/
theorem countFree_cons {K V : Type} (s : Slot K V) (rest : List (Slot K V)) :
    countFree (s :: rest) = countFree rest + if s.isNone then 1 else 0 := by
  simp [countFree, List.countP_cons]

/-- Filling the first free slot makes the key retrievable, provided the
key was absent and a free slot exists. -/
theorem getSlots_fill_self {K V : Type} [DecidableEq K] {slots : List (Slot K V)}
    {k : K} (v : V) (h1 : slots.any (slotHasKey k) = false)
    (h2 : 0 < countFree slots) :
    getSlots (fillFirstFree k v slots) k = some v := by
  induction slots with
  | nil => simp [countFree] at h2
  | cons s rest ih =>
    cases s with
    | none =>
      simp only [fillFirstFree]
      exact getSlots_cons_self k v rest
    | some p =>
      simp only [List.any_cons, Bool.or_eq_false_iff] at h1
      have h2' : 0 < countFree rest := by
        rw [countFree_cons] at h2
        simpa using h2
      simp only [fillFirstFree]
      rw [getSlots_cons_neg h1.1]
      exact ih h1.2 h2'

/-- Filling a free slot with one key does not affect lookups of another. -/
theorem getSlots_fill_other {K V : Type} [DecidableEq K] {slots : List (Slot K V)}
    {k k' : K} (v : V) (hne : k' ≠ k) :
    getSlots (fillFirstFree k v slots) k' = getSlots slots k' := by
  induction slots with
  | nil => rfl
  | cons s rest ih =>
    cases s with
    | none =>
      simp only [fillFirstFree]
      rw [getSlots_cons_neg (by simp [slotHasKey, Ne.symm hne]),
        getSlots_cons_neg (by simp [slotHasKey])]
    | some p =>
      simp only [fillFirstFree]
      cases hp : slotHasKey k' (some p) with
      | true => rw [getSlots_cons_pos hp, getSlots_cons_pos hp]
      | false => rw [getSlots_cons_neg hp, getSlots_cons_neg hp, ih]

/-- Overwriting one key's slot does not affect lookups of another key. -/
theorem getSlots_overwrite_other {K V : Type} [DecidableEq K] {slots : List (Slot K V)}
    {k k' : K} (v : V) (hne : k' ≠ k) :
    getSlots (slots.map (overwriteSlot k v)) k' = getSlots slots k' := by
  induction slots with
  | nil => rfl
  | cons s rest ih =>
    rw [List.map_cons]
    cases hp : slotHasKey k' s with
    | false =>
      have hov : slotHasKey k' (overwriteSlot k v s) = false := by
        cases s with
        | none => simpa [overwriteSlot, slotHasKey] using hp
        | some p =>
          by_cases hpk : p.1 = k
          · simp [overwriteSlot, slotHasKey, hpk, Ne.symm hne]
          · simpa [overwriteSlot, slotHasKey, hpk] using hp
      rw [getSlots_cons_neg hov, getSlots_cons_neg hp, ih]
    | true =>
      cases s with
      | none => simp [slotHasKey] at hp
      | some p =>
        have hpk' : p.1 = k' := by simpa [slotHasKey] using hp
        have hov : overwriteSlot k v (some p) = some p := by
          simp [overwriteSlot, slotHasKey, hpk', hne]
        rw [hov, getSlots_cons_pos hp, getSlots_cons_pos hp]

/-- `put` of one key does not affect lookups of another key. -/
theorem getSlots_put_other {K V : Type} [DecidableEq K] {slots : List (Slot K V)}
    {k k' : K} (v : V) (hne : k' ≠ k) :
    getSlots (putSlots slots k v) k' = getSlots slots k' := by
  unfold putSlots
  split
  · exact getSlots_overwrite_other v hne
  · exact getSlots_fill_other v hne

/-- `put` of one key does not change whether another key occupies a slot. -/
theorem any_put_other {K V : Type} [DecidableEq K] {slots : List (Slot K V)}
    {k k' : K} (v : V) (hne : k' ≠ k) :
    (putSlots slots k v).any (slotHasKey k') = slots.any (slotHasKey k') := by
  cases h2 : slots.any (slotHasKey k') with
  | false =>
    have h3 := getSlots_eq_none_of_any_false h2
    rw [← getSlots_put_other v hne] at h3
    exact any_eq_false_of_getSlots_eq_none h3
  | true =>
    cases h1 : (putSlots slots k v).any (slotHasKey k') with
    | true => rfl
    | false =>
      have h3 := getSlots_eq_none_of_any_false h1
      rw [getSlots_put_other v hne] at h3
      have h4 := any_eq_false_of_getSlots_eq_none h3
      rw [h2] at h4
      exact Bool.noConfusion h4

/-- Filling one free slot consumes exactly one free slot. -/
theorem countFree_fill {K V : Type} (k : K) (v : V) {slots : List (Slot K V)}
    (h : 0 < countFree slots) :
    countFree (fillFirstFree k v slots) = countFree slots - 1 := by
  induction slots with
  | nil => simp [countFree] at h
  | cons s rest ih =>
    cases s with
    | none =>
      simp only [fillFirstFree, countFree_cons]
      simp
    | some p =>
      have h' : 0 < countFree rest := by
        rw [countFree_cons] at h
        simpa using h
      simp only [fillFirstFree, countFree_cons]
      have := ih h'
      simp only [Option.isNone]
      omega

/-- Inserting pairs whose keys all differ from `k` leaves the lookup of
`k` unchanged. -/
theorem getSlots_insertAll_of_not_mem {K V : Type} [DecidableEq K]
    (kvs : List (K × V)) {slots : List (Slot K V)} {k : K}
    (hk : ∀ p ∈ kvs, p.1 ≠ k) :
    getSlots (insertAll kvs slots) k = getSlots slots k := by
  induction kvs generalizing slots with
  | nil => rfl
  | cons q rest ih =>
    show getSlots (insertAll rest (putSlots slots q.1 q.2)) k = _
    rw [ih (fun p hp => hk p (List.mem_cons_of_mem _ hp)),
      getSlots_put_other q.2 (Ne.symm (hk q (List.mem_cons_self q rest)))]

/-- Main invariant for `put`/`get`: inserting pairwise-distinct keys that
are absent from a slot array with enough free slots makes every inserted
pair retrievable and every other absent key still miss. -/
theorem insertAll_correct {K V : Type} [DecidableEq K] (kvs : List (K × V)) :
    ∀ slots : List (Slot K V),
      (kvs.map Prod.fst).Nodup →
      (∀ p ∈ kvs, slots.any (slotHasKey p.1) = false) →
      kvs.length ≤ countFree slots →
      (∀ p ∈ kvs, getSlots (insertAll kvs slots) p.1 = some p.2) ∧
      (∀ k, slots.any (slotHasKey k) = false → (∀ p ∈ kvs, p.1 ≠ k) →
        getSlots (insertAll kvs slots) k = none) := by
  induction kvs with
  | nil =>
    intro slots _ _ _
    exact ⟨fun p hp => absurd hp (List.not_mem_nil p),
      fun k hk _ => getSlots_eq_none_of_any_false hk⟩
  | cons q rest ih =>
    intro slots hnd habs hcap
    have hq : slots.any (slotHasKey q.1) = false := habs q (List.mem_cons_self q rest)
    have hfree : 0 < countFree slots := by
      simp only [List.length_cons] at hcap
      omega
    have hput : putSlots slots q.1 q.2 = fillFirstFree q.1 q.2 slots := by
      unfold putSlots
      rw [if_neg (by simp [hq])]
    rw [List.map_cons] at hnd
    obtain ⟨hq_notmem, hnd'⟩ := List.nodup_cons.mp hnd
    have hner : ∀ p ∈ rest, p.1 ≠ q.1 := by
      intro p hp hcontra
      exact hq_notmem (hcontra ▸ List.mem_map_of_mem Prod.fst hp)
    have habs' : ∀ p ∈ rest, (putSlots slots q.1 q.2).any (slotHasKey p.1) = false := by
      intro p hp
      rw [any_put_other q.2 (hner p hp)]
      exact habs p (List.mem_cons_of_mem _ hp)
    have hcap' : rest.length ≤ countFree (putSlots slots q.1 q.2) := by
      rw [hput, countFree_fill q.1 q.2 hfree]
      simp only [List.length_cons] at hcap
      omega
    have IH := ih (putSlots slots q.1 q.2) hnd' habs' hcap'
    constructor
    · intro p hp
      rcases List.mem_cons.mp hp with hpq | hpr
      · have hkey : getSlots (insertAll rest (putSlots slots q.1 q.2)) q.1 = some q.2 := by
          rw [getSlots_insertAll_of_not_mem rest hner, hput]
          exact getSlots_fill_self q.2 hq hfree
        rw [hpq]
        exact hkey
      · exact IH.1 p hpr
    · intro k hk hkne
      have hkq : k ≠ q.1 := (hkne q (List.mem_cons_self q rest)).symm
      have hk' : (putSlots slots q.1 q.2).any (slotHasKey k) = false := by
        rw [any_put_other q.2 hkq]
        exact hk
      exact IH.2 k hk' (fun p hp => hkne p (List.mem_cons_of_mem _ hp))

/-- Folding `Hashtable.put` over a pair list is `insertAll` on the slots. -/
theorem foldl_put_slots {K V : Type} [DecidableEq K] (kvs : List (K × V))
    (s : List (Slot K V)) :
    List.foldl (fun t kv => Hashtable.put t kv.1 kv.2) (⟨s⟩ : Hashtable K V) kvs =
      ⟨insertAll kvs s⟩ := by
  induction kvs generalizing s with
  | nil => rfl
  | cons q rest ih => exact ih (putSlots s q.1 q.2)

/-- No key occupies a slot of the all-free table. -/
theorem any_replicate_none {K V : Type} [DecidableEq K] (n : Nat) (k : K) :
    (List.replicate n (none : Slot K V)).any (slotHasKey k) = false := by
  rw [List.any_eq_false]
  intro s hs
  rw [List.eq_of_mem_replicate hs]
  simp [slotHasKey]

/-- Every slot of the all-free table is free. -/
theorem countFree_replicate {K V : Type} (n : Nat) :
    countFree (List.replicate n (none : Slot K V)) = n := by
  induction n with
  | zero => rfl
  | succ m ih => simp [List.replicate_succ, countFree_cons, ih]

/-- C2: for any key type with the key capability (equality and hashing,
modelled by decidable equality), after inserting `n` distinct keys via
`put` into a table of capacity at least `n`, `get` on each inserted key
returns `Something` of the value put for that key, `get` on a key never
inserted returns `Nothing`, and in both cases `get` leaves the table
exactly as it was (it does not remove or modify the entry it looks up). -/
theorem hashtable_put_get (K V : Type) [DecidableEq K] (kvs : List (K × V)) (cap : Nat)
    (hnd : (kvs.map Prod.fst).Nodup) (hcap : kvs.length ≤ cap) :
    (∀ p ∈ kvs,
      (List.foldl (fun t kv => Hashtable.put t kv.1 kv.2)
          (Hashtable.empty K V cap) kvs).get p.1 =
        (some p.2,
          List.foldl (fun t kv => Hashtable.put t kv.1 kv.2)
            (Hashtable.empty K V cap) kvs)) ∧
    (∀ k, (∀ p ∈ kvs, p.1 ≠ k) →
      (List.foldl (fun t kv => Hashtable.put t kv.1 kv.2)
          (Hashtable.empty K V cap) kvs).get k =
        (none,
          List.foldl (fun t kv => Hashtable.put t kv.1 kv.2)
            (Hashtable.empty K V cap) kvs)) := by
  have habs : ∀ p ∈ kvs, (List.replicate cap (none : Slot K V)).any (slotHasKey p.1) = false :=
    fun p _ => any_replicate_none cap p.1
  have hcap' : kvs.length ≤ countFree (List.replicate cap (none : Slot K V)) := by
    rw [countFree_replicate]
    exact hcap
  have H := insertAll_correct kvs (List.replicate cap none) hnd habs hcap'
  have hfold : List.foldl (fun t kv => Hashtable.put t kv.1 kv.2)
      (Hashtable.empty K V cap) kvs = ⟨insertAll kvs (List.replicate cap none)⟩ :=
    foldl_put_slots kvs (List.replicate cap none)
  constructor
  · intro p hp
    rw [hfold]
    unfold Hashtable.get
    rw [H.1 p hp]
  · intro k hkne
    rw [hfold]
    unfold Hashtable.get
    rw [H.2 k (any_replicate_none cap k) hkne]

/-- The table of the C2 witness: keys 1 and 2 in a capacity-2 table. -/
def c2WitnessTable : Hashtable Nat Nat :=
  List.foldl (fun t kv => Hashtable.put t kv.1 kv.2)
    (Hashtable.empty Nat Nat 2) [(1, 10), (2, 20)]

/-- Witness for C2: two distinct keys in a capacity-2 table; lookups hit
with the stored values, a foreign key misses, and the table is returned
unchanged. -/
theorem hashtable_put_get_witness :
    c2WitnessTable.get 1 = (some 10, c2WitnessTable) ∧
    c2WitnessTable.get 2 = (some 20, c2WitnessTable) ∧
    c2WitnessTable.get 5 = (none, c2WitnessTable) := by
  have h := hashtable_put_get Nat Nat [(1, 10), (2, 20)] 2 (by decide) (by decide)
  exact ⟨h.1 (1, 10) (by simp), h.1 (2, 20) (by simp), h.2 5 (by decide)⟩
